import Mathlib

/-!
# Verification of the hsync content-matching and rename engine

A shallow embedding of `hsync.go` (a filesystem hierarchy synchronizer):

* the rolling-checksum primitive `rollingChecksum`,
* the fingerprint table (`entries : map[partialHash]fileMatch`) and the
  source/target scan visitors with their lock-step conflict loops,
* the rename-graph resolver `processRenames` with chain and cycle handling.

Modelling conventions:

* Machine integers (`int64` sizes, positions) are `Nat`; file bytes are `Nat`.
* The MD5 digest is modelled as the exact sequence of bytes fed to the
  accumulator (an idealized collision-free hash): `hash.Hash` state is the
  list of bytes written so far and `Sum` returns that list.  All table logic
  in the source only compares digests for equality.
* `os.File.ReadAt(buf[:BLOCKSIZE], off)` on a file with contents `c` returns
  the bytes `(c.drop off).take BLOCKSIZE` and error `io.EOF` exactly when
  fewer than `BLOCKSIZE` bytes were available (`c.length < off + BLOCKSIZE`),
  matching `os.(*File).ReadAt`, which reports `io.EOF` only on a short read.
* A disk file is modelled by `MFile`: its contents, whether `os.Open` fails,
  and an optional block index from which `ReadAt` fails with a non-EOF error.
* Go `for` loops are modelled by structural recursion on a `gas : List Unit`
  argument; every theorem supplies enough gas for the loop to reach its real
  exit condition.
-/

namespace Hsync

/-- Bytes of a file, and also the state of the (idealized) digest. -/
abbrev Bytes := List Nat

/-- `BLOCKSIZE` constant from the source. -/
def BLOCKSIZE : Nat := 4096

/-- Result of one `rollingChecksum` call: `ok` models a nil error, `eof`
models `io.EOF`, `ioerr` models any other error (failed `os.Open` or a
non-EOF `ReadAt` error). -/
inductive RollErr where
  | ok
  | eof
  | ioerr
deriving DecidableEq, Repr

/-- A disk file as seen by the scanner: `openFail` means `os.Open` fails,
`failFrom = some k` means `ReadAt` at block offset `p` fails with a non-EOF
error for every `p ≥ k`. -/
structure MFile where
  openFail : Bool
  content : Bytes
  failFrom : Option Nat
deriving DecidableEq, Repr

/-- `fileID` from the source: a path together with the digest state `h`. -/
structure fileID where
  path : String
  h : Bytes
deriving DecidableEq, Repr

/-- `partialHash` from the source: the fingerprint key of the entries map. -/
structure partialHash where
  size : Nat
  pos : Nat
  hash : Bytes
deriving DecidableEq, Repr

/-- The target slot of a `fileMatch`: either the distinguished `unsolvable`
sentinel (`&unsolvable` pointer in the source) or a reference to a `fileID`. -/
inductive TargetRef where
  | unsolvable
  | ref (f : fileID)
deriving DecidableEq, Repr

/-- `fileMatch` from the source.  `sourceID = none` and `targetID = none`
is the dummy marker. -/
structure fileMatch where
  sourceID : Option fileID
  targetID : Option TargetRef
deriving DecidableEq, Repr

/-- The bytes `ReadAt` delivers for block `pos`: at most `BLOCKSIZE` bytes
starting at byte offset `pos * BLOCKSIZE`. -/
def readChunk (c : Bytes) (pos : Nat) : Bytes :=
  (c.drop (pos * BLOCKSIZE)).take BLOCKSIZE

/-- Whether `ReadAt` at block `pos` fails with a non-EOF error. -/
def readAtErr (f : MFile) (pos : Nat) : Bool :=
  match f.failFrom with
  | some k => decide (k ≤ pos)
  | none => false

/-- `rollingChecksum` from the source.  `opened` models whether `*file` is
already non-nil; the function returns the error, the new opened state, the
updated `fileID` (digest state) and the updated `partialHash`.  On a non-EOF
error it returns everything unchanged, exactly as the Go code returns before
touching `fid.h`, `key.pos` and `key.hash`. -/
def rollingChecksum (f : MFile) (opened : Bool) (fid : fileID) (key : partialHash) :
    RollErr × Bool × fileID × partialHash :=
  if opened = false ∧ f.openFail = true then
    (.ioerr, false, fid, key)
  else if readAtErr f key.pos = true then
    (.ioerr, true, fid, key)
  else
    let chunk := readChunk f.content key.pos
    let h2 := fid.h ++ chunk
    ((if f.content.length < (key.pos + 1) * BLOCKSIZE then RollErr.eof else RollErr.ok),
      true, ⟨fid.path, h2⟩, ⟨key.size, key.pos + 1, h2⟩)

/-- `newFileEntry` from the source: fresh digest, size-only fingerprint. -/
def newFileEntry (path : String) (size : Nat) : fileID × partialHash :=
  (⟨path, []⟩, ⟨size, 0, []⟩)

/-- Iterated rolling: state after `k` successive `rollingChecksum` calls on
one record, starting from `newFileEntry` (the component `RollErr` is the
error returned by the `k`-th call; for `k = 0` it is `.ok`, modelling the
initial nil `err`). -/
def rollsTo (f : MFile) (path : String) (size : Nat) : Nat → RollErr × Bool × fileID × partialHash
  | 0 => (.ok, false, (newFileEntry path size).1, (newFileEntry path size).2)
  | k + 1 =>
    let r := rollsTo f path size k
    rollingChecksum f r.2.1 r.2.2.1 r.2.2.2

/-- A record with contents `c` becomes exhausted at roll count `r`: the
`r`-th roll is the first one that returns `io.EOF`. -/
def exhaustedAt (c : Bytes) (r : Nat) : Prop :=
  0 < r ∧ (rollsTo ⟨false, c, none⟩ "" c.length r).1 = .eof ∧
    ∀ q, q < r → 0 < q → (rollsTo ⟨false, c, none⟩ "" c.length q).1 = .ok

instance (c : Bytes) (r : Nat) : Decidable (exhaustedAt c r) := by
  unfold exhaustedAt; infer_instance

/-! ## Go map model

Go maps are modelled as association lists without duplicate keys:
`lookup` is `m[k]`, `mset` is `m[k] = v`, `erase` is `delete(m, k)`. -/

/-- `m[k]` with comma-ok semantics (`none` = absent). -/
def lookup {α β : Type} [DecidableEq α] : List (α × β) → α → Option β
  | [], _ => none
  | (k, v) :: rest, x => if x = k then some v else lookup rest x

/-- `delete(m, k)`. -/
def erase {α β : Type} [DecidableEq α] : List (α × β) → α → List (α × β)
  | [], _ => []
  | (k, v) :: rest, x => if k = x then erase rest x else (k, v) :: erase rest x

/-- `m[k] = v` (replacing any previous binding). -/
def mset {α β : Type} [DecidableEq α] (m : List (α × β)) (k : α) (v : β) : List (α × β) :=
  (k, v) :: erase m k

/-! ## Rename-graph resolver (`processRenames`)

The filesystem under TARGET is a map from path to content label.  Rename
execution is recorded in an event list: `renamed` for a performed
`os.Rename`, `skipped` for the destination-exists-without-clobber skip, and
`failed` for an `os.Rename` that returns an error (source path missing).
`os.MkdirAll` is modelled as always succeeding (directories are not
modelled), and `ioutil.TempFile` as creating an empty file under the fresh
name `tmp` supplied by the caller. -/

/-- One rename-execution log event. -/
inductive REvent where
  | renamed (oldp newp : String)
  | skipped (oldp newp : String)
  | failed (oldp newp : String)
deriving DecidableEq, Repr

/-- The `oldpath` of an event. -/
def evSrc : REvent → String
  | .renamed o _ => o
  | .skipped o _ => o
  | .failed o _ => o

/-- The `newpath` of an event. -/
def evDst : REvent → String
  | .renamed _ n => n
  | .skipped _ n => n
  | .failed _ n => n

/-- The event is an actually performed rename. -/
def evRenamed : REvent → Prop
  | .renamed _ _ => True
  | .skipped _ _ => False
  | .failed _ _ => False

/-- No event's destination is the source of a later (still pending) event. -/
def destSafe : List REvent → Prop
  | [] => True
  | e :: rest => (∀ e2 ∈ rest, evDst e ≠ evSrc e2) ∧ destSafe rest

/-- State threaded through `processRenames`: the two rename maps, the
TARGET filesystem (path to content), and the log of executed operations. -/
structure RenameState where
  renameOps : List (String × String)
  reverseOps : List (String × String)
  fs : List (String × String)
  events : List REvent
deriving DecidableEq, Repr

/-- `os.Rename(oldp, newp)`: fails iff `oldp` does not exist; otherwise
moves the content, overwriting `newp` if present. -/
def renameFile (fs : List (String × String)) (oldp newp : String) :
    Option (List (String × String)) :=
  match lookup fs oldp with
  | none => none
  | some v => some (mset (erase fs oldp) newp v)

/-- The backward pass of `processRenames` (the `for oldpath != ""` loop):
make the destination directory, check the overwrite policy, rename, remove
the processed edge from `renameOps`, and step backward through
`reverseOps` (Go's zero value `""` for a missing key ends the chain). -/
def backwardPass (clobber : Bool) : List Unit → String → String → RenameState → RenameState
  | [], _, _, st => st
  | _ :: gas, oldpath, newpath, st =>
    if oldpath = "" then st
    else
      let st1 :=
        if clobber = true ∨ (lookup st.fs newpath).isSome = false then
          match renameFile st.fs oldpath newpath with
          | some fs2 => { st with fs := fs2, events := st.events ++ [REvent.renamed oldpath newpath] }
          | none => { st with events := st.events ++ [REvent.failed oldpath newpath] }
        else { st with events := st.events ++ [REvent.skipped oldpath newpath] }
      let st2 := { st1 with renameOps := erase st1.renameOps oldpath }
      backwardPass clobber gas ((lookup st2.reverseOps oldpath).getD "") oldpath st2

/-- The forward walk of `processRenames` (the `for newpath != cycleMarker`
loop): follow `renameOps` until the chain ends or the walk returns to the
cycle marker. -/
def forwardWalk (ops : List (String × String)) (cycleMarker : String) :
    List Unit → String → String → String × String
  | [], oldpath, newpath => (oldpath, newpath)
  | _ :: gas, oldpath, newpath =>
    if newpath = cycleMarker then (oldpath, newpath)
    else
      match lookup ops newpath with
      | none => (oldpath, newpath)
      | some v => forwardWalk ops cycleMarker gas newpath v

/-- The body of the outer `range renameOps` loop for one starting edge
`(oldpath0, newpath0)`: forward walk, cycle breaking via the temp file, and
the backward pass. -/
def processOne (gas : List Unit) (clobber : Bool) (tmp : String) (oldpath0 newpath0 : String)
    (st : RenameState) : RenameState :=
  let w := forwardWalk st.renameOps oldpath0 gas oldpath0 newpath0
  if oldpath0 = w.2 then
    -- Cycle detected: `ioutil.TempFile` creates the empty file `tmp`,
    -- the chain start is renamed onto it, and the temp name is spliced
    -- into `reverseOps` as the predecessor of the cycle marker.
    let fsT := mset st.fs tmp ""
    let st1 :=
      match renameFile fsT w.1 tmp with
      | some fs2 => { st with fs := fs2, events := st.events ++ [REvent.renamed w.1 tmp] }
      | none => { st with fs := fsT, events := st.events ++ [REvent.failed w.1 tmp] }
    let st2 := { st1 with reverseOps := mset st1.reverseOps oldpath0 tmp }
    let st3 := { st2 with renameOps := erase st2.renameOps w.1 }
    backwardPass clobber gas ((lookup st3.reverseOps w.1).getD "") w.1 st3
  else
    backwardPass clobber gas w.1 w.2 st

/-- `processRenames` from the source: iterate over the keys of `renameOps`
in the order `order` (Go map iteration order is unspecified; an entry
deleted by an earlier chain is no longer yielded, modelled by the `lookup`
guard), skipping `oldpath == newpath` no-ops. -/
def processRenames (gas : List Unit) (clobber : Bool) (tmp : String) :
    List String → RenameState → RenameState
  | [], st => st
  | k :: order, st =>
    match lookup st.renameOps k with
    | none => processRenames gas clobber tmp order st
    | some v =>
      if k = v then processRenames gas clobber tmp order st
      else processRenames gas clobber tmp order (processOne gas clobber tmp k v st)

/-! ## Scan phase (`visitSource` / `visitTarget`)

The `entries` map and the per-file visitors.  The walk supplies
`(path, kind, size)` triples; a disk function maps each path to its
`MFile`.  Only the duplicate diagnostics are recorded in the `log` field
(the plain `log.Println(err)` error prints carry no table information and
are not modelled). -/

/-- The `entries : map[partialHash]fileMatch` table. -/
abbrev EMap := List (partialHash × fileMatch)

/-- Duplicate diagnostics emitted by the visitors. -/
inductive LogEvent where
  | sourceDup (hash : Bytes) (path : String)
  | targetDupMatch (hash : Bytes) (path : String)
  | targetDup (hash : Bytes) (path : String) (srcPath : String)
deriving DecidableEq, Repr

/-- Scanner state: the shared entries table and the diagnostic log. -/
structure SState where
  entries : EMap
  log : List LogEvent
deriving DecidableEq, Repr

/-- Result of the dummy-skip loop: `err` aborts the visit (non-EOF read
error), `done` carries the rolled record, the open state, the last error
and the entry found at the final fingerprint. -/
inductive SkipRes where
  | err
  | done (fid : fileID) (key : partialHash) (opened : Bool) (e : RollErr) (found : Option fileMatch)
deriving Repr

/-- The dummy-skip loop (`for ok && v.sourceID == nil && err != io.EOF`),
textually identical in `visitSource` and `visitTarget`. -/
def dummySkip (disk : String → MFile) :
    List Unit → fileID → partialHash → Bool → RollErr → EMap → SkipRes
  | [], fid, key, opened, e, entries => .done fid key opened e (lookup entries key)
  | _ :: gas, fid, key, opened, e, entries =>
    match lookup entries key with
    | none => .done fid key opened e none
    | some v =>
      if v.sourceID = none ∧ e ≠ .eof then
        match rollingChecksum (disk fid.path) opened fid key with
        | (e1, opened1, fid1, key1) =>
          if e1 = .ioerr then .err
          else dummySkip disk gas fid1 key1 opened1 e1 entries
      else .done fid key opened e (some v)

/-- Result of the source-side conflict loop: `inputErr` models the
`return nil` on an input read error (both files end up dropped), `finish`
carries the loop state at exit (by divergence, simultaneous EOF, or a
conflict-side read error, distinguished by `e`). -/
inductive SCRes where
  | inputErr (entries : EMap)
  | finish (iID : fileID) (iKey : partialHash) (cID : fileID) (cKey : partialHash)
      (e : RollErr) (entries : EMap)
deriving Repr

/-- The `visitSource` conflict loop
(`for inputKey == conflictKey && err == nil`): mark the shared key dummy,
roll the input (returning on a non-EOF error), then roll the conflicting
file (breaking on a non-EOF error). -/
def sourceConflict (disk : String → MFile) :
    List Unit → fileID → partialHash → Bool → fileID → partialHash → Bool →
      RollErr → EMap → SCRes
  | [], iID, iKey, _, cID, cKey, _, e, entries => .finish iID iKey cID cKey e entries
  | _ :: gas, iID, iKey, iOp, cID, cKey, cOp, e, entries =>
    if iKey = cKey ∧ e = .ok then
      let entries1 := mset entries iKey ⟨none, none⟩
      match rollingChecksum (disk iID.path) iOp iID iKey with
      | (e1, iOp1, iID1, iKey1) =>
        if e1 = .ioerr then .inputErr entries1
        else
          match rollingChecksum (disk cID.path) cOp cID cKey with
          | (e2, cOp1, cID1, cKey1) =>
            if e2 = .ioerr then .finish iID1 iKey1 cID1 cKey1 e2 entries1
            else sourceConflict disk gas iID1 iKey1 iOp1 cID1 cKey1 cOp1 e2 entries1
    else .finish iID iKey cID cKey e entries

/-- The `visitSource` visitor body for one regular file. -/
def sourceVisitFile (disk : String → MFile) (gas : List Unit) (path : String) (size : Nat)
    (st : SState) : SState :=
  let fe := newFileEntry path size
  match dummySkip disk gas fe.1 fe.2 false .ok st.entries with
  | .err => st
  | .done fid1 key1 op1 e1 found =>
    match found with
    | some v =>
      match v.sourceID with
      | none => { st with log := st.log ++ [.sourceDup key1.hash fid1.path] }
      | some cID =>
        match sourceConflict disk gas fid1 key1 op1 cID key1 false e1 st.entries with
        | .inputErr entries1 => { entries := entries1, log := st.log }
        | .finish iID iKey cID2 cKey e entries1 =>
          if iKey = cKey ∧ e = .eof then
            { entries := mset entries1 iKey ⟨none, none⟩,
              log := st.log ++ [.sourceDup iKey.hash iID.path, .sourceDup cKey.hash cID2.path] }
          else
            let entries2 := mset entries1 iKey ⟨some iID, none⟩
            let entries3 := if e = .ioerr then entries2 else mset entries2 cKey ⟨some cID2, none⟩
            { entries := entries3, log := st.log }
    | none => { st with entries := mset st.entries key1 ⟨some fid1, none⟩ }

/-- Result of the target-side three-way conflict loop: `srcErr` models the
`return nil` on a source read error (everything at the fingerprint is
dropped), `finish` carries the loop state at exit. -/
inductive TCRes where
  | srcErr (entries : EMap)
  | finish (sID : fileID) (sKey : partialHash) (iID : fileID) (iKey : partialHash)
      (cID : fileID) (cKey : partialHash) (e : RollErr) (entries : EMap)
deriving Repr

/-- The `visitTarget` three-way conflict loop
(`for inputKey == conflictKey && inputKey == sourceKey && err == nil`):
mark the shared key dummy, roll the source record (returning on a non-EOF
error), roll the input (remembering its error), roll the existing
conflicting candidate (breaking on its non-EOF error), then break if the
input had a non-EOF error. -/
def targetConflict (sdisk tdisk : String → MFile) :
    List Unit → fileID → partialHash → Bool → fileID → partialHash → Bool →
      fileID → partialHash → Bool → RollErr → EMap → TCRes
  | [], sID, sKey, _, iID, iKey, _, cID, cKey, _, e, entries =>
    .finish sID sKey iID iKey cID cKey e entries
  | _ :: gas, sID, sKey, sOp, iID, iKey, iOp, cID, cKey, cOp, e, entries =>
    if iKey = cKey ∧ iKey = sKey ∧ e = .ok then
      let entries1 := mset entries iKey ⟨none, none⟩
      match rollingChecksum (sdisk sID.path) sOp sID sKey with
      | (es, sOp1, sID1, sKey1) =>
        if es = .ioerr then .srcErr entries1
        else
          match rollingChecksum (tdisk iID.path) iOp iID iKey with
          | (ei, iOp1, iID1, iKey1) =>
            match rollingChecksum (tdisk cID.path) cOp cID cKey with
            | (ec, cOp1, cID1, cKey1) =>
              if ec = .ioerr then .finish sID1 sKey1 iID1 iKey1 cID1 cKey1 ec entries1
              else if ei = .ioerr then .finish sID1 sKey1 iID1 iKey1 cID1 cKey1 ec entries1
              else targetConflict sdisk tdisk gas sID1 sKey1 sOp1 iID1 iKey1 iOp1
                cID1 cKey1 cOp1 ec entries1
    else .finish sID sKey iID iKey cID cKey e entries

/-- The `visitTarget` visitor body for one regular file.  `sdisk` is the
SOURCE tree (the cross-tree `Chdir` dance), `tdisk` the TARGET tree. -/
def targetVisitFile (sdisk tdisk : String → MFile) (gas : List Unit) (path : String)
    (size : Nat) (st : SState) : SState :=
  let fe := newFileEntry path size
  match dummySkip tdisk gas fe.1 fe.2 false .ok st.entries with
  | .err => st
  | .done fid1 key1 op1 e1 found =>
    match found with
    | none => st
    | some v =>
      match v.sourceID with
      | none => { st with log := st.log ++ [.targetDupMatch key1.hash fid1.path] }
      | some sID =>
        match v.targetID with
        | some .unsolvable =>
          { st with log := st.log ++ [.targetDup key1.hash fid1.path sID.path] }
        | none => { st with entries := mset st.entries key1 ⟨some sID, some (.ref fid1)⟩ }
        | some (.ref cID) =>
          match targetConflict sdisk tdisk gas sID key1 false fid1 key1 op1 cID key1 false
              e1 st.entries with
          | .srcErr entries1 => { entries := entries1, log := st.log }
          | .finish sID2 sKey iID iKey cID2 cKey e entries1 =>
            if iKey = sKey ∧ iKey = cKey ∧ e = .eof then
              { entries := mset entries1 sKey ⟨some sID2, some .unsolvable⟩,
                log := st.log ++ [.targetDup iKey.hash iID.path sID.path,
                  .targetDup cKey.hash cID2.path sID.path] }
            else if iKey = sKey ∧ iKey ≠ cKey then
              { entries := mset entries1 sKey ⟨some sID2, some (.ref iID)⟩, log := st.log }
            else if cKey = sKey ∧ cKey ≠ iKey then
              { entries := mset entries1 sKey ⟨some sID2, some (.ref cID2)⟩, log := st.log }
            else if cKey ≠ sKey ∧ iKey ≠ sKey then
              { entries := mset entries1 sKey ⟨some sID2, none⟩, log := st.log }
            else { entries := entries1, log := st.log }

/-- File kind reported by `os.FileInfo.Mode()` for a walk entry. -/
inductive FileKind where
  | regular
  | directory
  | symlink
  | other
deriving DecidableEq, Repr

/-- One `(relativePath, fileKind, size)` triple delivered by the walk. -/
structure WalkEntry where
  path : String
  kind : FileKind
  size : Nat
deriving DecidableEq, Repr

/-- `visitSource` from the source: walk the tree, processing exactly the
entries whose mode is a regular file (`info.Mode().IsRegular()`). -/
def visitSource (disk : String → MFile) (gas : List Unit) (files : List WalkEntry)
    (st : SState) : SState :=
  files.foldl
    (fun st f => if f.kind = .regular then sourceVisitFile disk gas f.path f.size st else st) st

/-- `visitTarget` from the source: same walk filter over the TARGET tree. -/
def visitTarget (sdisk tdisk : String → MFile) (gas : List Unit) (files : List WalkEntry)
    (st : SState) : SState :=
  files.foldl
    (fun st f =>
      if f.kind = .regular then targetVisitFile sdisk tdisk gas f.path f.size st else st) st

/-- The keys the conflict loops mark as dummies: at iteration `j` the loop
overwrites the shared fingerprint `key j` with the dummy marker.  This
mirrors the `entries[inputKey] = fileMatch{}` writes of iterations
`p, p+1, ..., p+k-1`. -/
def insertDummies (key : Nat → partialHash) : Nat → Nat → EMap → EMap
  | _, 0, entries => entries
  | p, k + 1, entries => insertDummies key (p + 1) k (mset entries (key p) ⟨none, none⟩)

/-- Enough gas for every loop appearing in the rename claims. -/
def gas9 : List Unit := [(), (), (), (), (), (), (), (), ()]

/-- Once `renameOps` is empty the remaining iteration order is irrelevant. -/
theorem processRenames_nil_ops (gas : List Unit) (clobber : Bool) (tmp : String)
    (order : List String) (st : RenameState) (h : st.renameOps = []) :
    processRenames gas clobber tmp order st = st := by
  induction order with
  | nil => rfl
  | cons k rest ih => simp [processRenames, h, lookup, ih]

/-- One step of the outer loop on a live, non-trivial edge. -/
theorem processRenames_cons (gas : List Unit) (clobber : Bool) (tmp k : String)
    (order : List String) (st : RenameState) (v : String)
    (hv : lookup st.renameOps k = some v) (hne : k ≠ v) :
    processRenames gas clobber tmp (k :: order) st =
      processRenames gas clobber tmp order (processOne gas clobber tmp k v st) := by
  simp [processRenames, hv, hne]

/-- The error returned by roll number `k` of a clean file with contents
`c` (for `k = 0` the initial nil error). -/
def rollErrN (c : Bytes) : Nat → RollErr
  | 0 => .ok
  | k + 1 => if c.length < (k + 1) * BLOCKSIZE then .eof else .ok

/-- Iterated rolls on a clean file: after `k` rolls the digest holds the
first `k * BLOCKSIZE` bytes and the fingerprint is
`(size, k, those bytes)`. -/
theorem rollsTo_good (c : Bytes) (path : String) (s : Nat) :
    ∀ k, rollsTo ⟨false, c, none⟩ path s k =
      (rollErrN c k, decide (0 < k), ⟨path, c.take (k * BLOCKSIZE)⟩,
        ⟨s, k, c.take (k * BLOCKSIZE)⟩) := by
  intro k
  induction k with
  | zero => simp [rollsTo, newFileEntry, rollErrN]
  | succ k ih =>
    rw [rollsTo, ih]
    simp only [rollingChecksum, readAtErr, readChunk, rollErrN]
    rw [if_neg (by simp)]
    rw [if_neg (by simp)]
    have : c.take (k * BLOCKSIZE) ++ (c.drop (k * BLOCKSIZE)).take BLOCKSIZE =
        c.take ((k + 1) * BLOCKSIZE) := by
      rw [Nat.succ_mul, List.take_add]
    simp [this]

/-- A record exhausts exactly at roll count `size / BLOCKSIZE + 1`
(note: for sizes that are exact multiples of `BLOCKSIZE` the last roll of
real data returns nil and an extra zero-length roll returns EOF). -/
theorem exhaustedAt_iff (c : Bytes) (r : Nat) :
    exhaustedAt c r ↔ r = c.length / BLOCKSIZE + 1 := by
  constructor
  · rintro ⟨hr, he, hq⟩
    rw [rollsTo_good] at he
    obtain ⟨k, rfl⟩ : ∃ k, r = k + 1 := ⟨r - 1, by omega⟩
    simp only [rollErrN] at he
    have hk : c.length < (k + 1) * BLOCKSIZE := by
      by_contra hcon
      rw [if_neg hcon] at he
      exact absurd he (by simp)
    simp only [BLOCKSIZE] at hk ⊢
    have hub : c.length / 4096 ≤ k := by omega
    rcases Nat.lt_or_ge (c.length / 4096) k with hlt | hge
    · exfalso
      have hq2 := hq (c.length / 4096 + 1) (by omega) (by omega)
      rw [rollsTo_good] at hq2
      simp only [rollErrN] at hq2
      rw [if_pos] at hq2
      · exact absurd hq2 (by simp)
      · simp only [BLOCKSIZE]
        omega
    · omega
  · rintro rfl
    refine ⟨Nat.succ_pos _, ?_, ?_⟩
    · rw [rollsTo_good]
      simp only [rollErrN]
      rw [if_pos]
      simp only [BLOCKSIZE]
      omega
    · intro q hq hq0
      rw [rollsTo_good]
      obtain ⟨m, rfl⟩ : ∃ m, q = m + 1 := ⟨q - 1, by omega⟩
      simp only [rollErrN]
      rw [if_neg]
      simp only [BLOCKSIZE] at hq ⊢
      omega

/-- C5.  One successful `rollingChecksum` call: it reads at most
`BLOCKSIZE` bytes at byte offset `pos * BLOCKSIZE` (the `readChunk`),
appends exactly those bytes to the record's digest state, increments `pos`
by one, sets `hash` to the digest of all bytes fed so far, and returns
`io.EOF` exactly when the read hit end-of-stream (a short or zero-length
read). -/
theorem roll_reads_one_block (f : MFile) (opened : Bool) (fid : fileID) (key : partialHash)
    (hopen : opened = true ∨ f.openFail = false)
    (hread : readAtErr f key.pos = false) :
    (rollingChecksum f opened fid key).2.2.1.path = fid.path ∧
    (rollingChecksum f opened fid key).2.2.1.h = fid.h ++ readChunk f.content key.pos ∧
    (readChunk f.content key.pos).length ≤ BLOCKSIZE ∧
    (rollingChecksum f opened fid key).2.2.2.pos = key.pos + 1 ∧
    (rollingChecksum f opened fid key).2.2.2.size = key.size ∧
    (rollingChecksum f opened fid key).2.2.2.hash = fid.h ++ readChunk f.content key.pos ∧
    ((rollingChecksum f opened fid key).1 = .eof ↔
      (readChunk f.content key.pos).length < BLOCKSIZE) := by
  have hcond : ¬(opened = false ∧ f.openFail = true) := by
    rcases hopen with h | h <;> simp [h]
  have hlen : (readChunk f.content key.pos).length =
      min BLOCKSIZE (f.content.length - key.pos * BLOCKSIZE) := by
    simp [readChunk]
  have hiff : f.content.length < (key.pos + 1) * BLOCKSIZE ↔
      (readChunk f.content key.pos).length < BLOCKSIZE := by
    rw [hlen]
    simp only [BLOCKSIZE]
    omega
  rw [rollingChecksum, if_neg hcond, if_neg (by simp [hread])]
  refine ⟨rfl, rfl, by rw [hlen]; omega, rfl, rfl, rfl, ?_⟩
  rw [← hiff]
  by_cases h : f.content.length < (key.pos + 1) * BLOCKSIZE <;> simp [h]

/-- Witness for C5: one roll of a 3-byte file. -/
theorem roll_reads_one_block_witness :
    (rollingChecksum ⟨false, [1, 2, 3], none⟩ false ⟨"x", []⟩ ⟨3, 0, []⟩).2.2.2.pos = 0 + 1 :=
  (roll_reads_one_block ⟨false, [1, 2, 3], none⟩ false ⟨"x", []⟩ ⟨3, 0, []⟩
    (Or.inr rfl) rfl).2.2.2.1

/-- C10.  Whenever `rollingChecksum` returns an error other than EOF
(open failure or a non-EOF read error), the caller's fingerprint and the
digest accumulator are completely unchanged. -/
theorem roll_error_keeps_fingerprint (f : MFile) (opened : Bool) (fid : fileID)
    (key : partialHash) (h : (rollingChecksum f opened fid key).1 = .ioerr) :
    (rollingChecksum f opened fid key).2.2.1 = fid ∧
    (rollingChecksum f opened fid key).2.2.2 = key := by
  by_cases h1 : opened = false ∧ f.openFail = true
  · simp [rollingChecksum, h1]
  · by_cases h2 : readAtErr f key.pos = true
    · simp [rollingChecksum, h1, h2]
    · exfalso
      rw [rollingChecksum, if_neg h1, if_neg (by simp [h2])] at h
      revert h
      by_cases h3 : f.content.length < (key.pos + 1) * BLOCKSIZE <;> simp [h3]

/-- Witness for C10: a file whose `os.Open` fails. -/
theorem roll_error_keeps_fingerprint_witness :
    (rollingChecksum ⟨true, [7], none⟩ false ⟨"x", []⟩ ⟨1, 0, []⟩).2.2.2 = ⟨1, 0, []⟩ :=
  (roll_error_keeps_fingerprint ⟨true, [7], none⟩ false ⟨"x", []⟩ ⟨1, 0, []⟩ (by decide)).2

/-- C6 fails on the code at sizes that are exact multiples of `BLOCKSIZE`:
a file of exactly `BLOCKSIZE` bytes exhausts at roll count 2 (the full
block reads back with a nil error and a zero-length second read returns
EOF), yet `(2-1)*BLOCKSIZE < size` is false. -/
theorem exhaustion_bound_counterexample :
    exhaustedAt (List.replicate BLOCKSIZE 0) 2 ∧
    ¬((2 - 1) * BLOCKSIZE < (List.replicate BLOCKSIZE 0).length ∧
      (List.replicate BLOCKSIZE 0).length ≤ 2 * BLOCKSIZE) := by
  constructor
  · rw [exhaustedAt_iff, List.length_replicate]
    norm_num [BLOCKSIZE]
  · rw [List.length_replicate]
    norm_num [BLOCKSIZE]

/-- C6 amended.  When a record exhausts at roll count `r` its size
satisfies `(r-1)*BLOCKSIZE ≤ size < r*BLOCKSIZE` (equality on the left at
exact multiples), and the exhaustion roll count is determined by the size
alone, so equal-size records always exhaust on the same roll count. -/
theorem exhaustion_roll_bounds (c : Bytes) (r : Nat) (h : exhaustedAt c r) :
    (r - 1) * BLOCKSIZE ≤ c.length ∧ c.length < r * BLOCKSIZE ∧
    ∀ c2 : Bytes, c2.length = c.length → exhaustedAt c2 r := by
  rw [exhaustedAt_iff] at h
  subst h
  refine ⟨?_, ?_, ?_⟩
  · simp only [BLOCKSIZE]
    omega
  · simp only [BLOCKSIZE]
    omega
  · intro c2 hlen
    rw [exhaustedAt_iff, hlen]

/-- Witness for C6 amended: a 1-byte file exhausts at roll count 1. -/
theorem exhaustion_roll_bounds_witness :
    (1 - 1) * BLOCKSIZE ≤ ([0] : Bytes).length :=
  (exhaustion_roll_bounds [0] 1 ((exhaustedAt_iff [0] 1).2 (by norm_num [BLOCKSIZE]))).1

/-- On an empty entries table the dummy-skip loop performs no roll and
finds nothing, whatever the gas. -/
theorem dummySkip_nil_entries (disk : String → MFile) (gas : List Unit) (fid : fileID)
    (key : partialHash) (opened : Bool) (e : RollErr) :
    dummySkip disk gas fid key opened e [] = .done fid key opened e none := by
  cases gas <;> rfl

/-- C7 fails on the code: the visitors filter only on
`info.Mode().IsRegular()`, so a regular file of size 0 is scanned and
produces a table entry carrying a source reference. -/
theorem empty_file_scanned_counterexample :
    (visitSource (fun _ => ⟨false, [], none⟩) [()] [⟨"e", .regular, 0⟩] ⟨[], []⟩).entries =
      [(⟨0, 0, []⟩, ⟨some ⟨"e", []⟩, none⟩)] := rfl

/-- C7 amended.  The scanners filter on the file kind only: non-regular
walk entries are skipped entirely, regular entries are processed whatever
their size, and in particular a size-0 regular file does produce a
fingerprint-table entry with a source reference. -/
theorem only_regular_files_scanned (sdisk tdisk : String → MFile) (gas : List Unit)
    (p : String) (k : FileKind) (n : Nat) (st : SState) (hk : k ≠ .regular) :
    visitSource sdisk gas [⟨p, k, n⟩] st = st ∧
    visitTarget sdisk tdisk gas [⟨p, k, n⟩] st = st ∧
    (∀ q m st2, visitSource sdisk gas [⟨q, .regular, m⟩] st2 = sourceVisitFile sdisk gas q m st2) ∧
    lookup (visitSource sdisk gas [⟨p, FileKind.regular, 0⟩] ⟨[], []⟩).entries ⟨0, 0, []⟩ =
      some ⟨some ⟨p, []⟩, none⟩ := by
  refine ⟨by simp [visitSource, hk], by simp [visitTarget, hk], by intro q m st2; rfl, ?_⟩
  show lookup (sourceVisitFile sdisk gas p 0 ⟨[], []⟩).entries ⟨0, 0, []⟩ = _
  rw [sourceVisitFile, dummySkip_nil_entries]
  simp [newFileEntry, mset, erase, lookup]

/-- Witness for C7 amended: a directory entry is skipped. -/
theorem only_regular_files_scanned_witness :
    visitSource (fun _ => ⟨false, [], none⟩) [()] [⟨"p", .directory, 5⟩] ⟨[], []⟩ = ⟨[], []⟩ :=
  (only_regular_files_scanned (fun _ => ⟨false, [], none⟩) (fun _ => ⟨false, [], none⟩)
    [()] "p" .directory 5 ⟨[], []⟩ (by decide)).1

/-- C1.  For the acyclic chain `a->b, b->c, c->d`, whichever live edge the
map iteration visits first, the resolver renames in the order
`c->d, b->c, a->b`; every executed rename's destination is not the source
of a later still-pending rename (`destSafe`), and with overwriting disabled
every rename is actually performed (no skip), so no rename ever found its
destination occupied and no intermediate overwrite occurs; the final
filesystem carries each content one step along the chain. -/
theorem chain_renames_backward (a b c d va vb vc tmp : String)
    (hab : a ≠ b) (hac : a ≠ c) (had : a ≠ d) (hbc : b ≠ c) (hbd : b ≠ d) (hcd : c ≠ d)
    (ha : a ≠ "") (hb : b ≠ "") (hc : c ≠ "")
    (order : List String) (hperm : order.Perm [a, b, c]) (st : RenameState)
    (hst : st = processRenames gas9 false tmp order
      ⟨[(a, b), (b, c), (c, d)], [(b, a), (c, b), (d, c)], [(a, va), (b, vb), (c, vc)], []⟩) :
    st.events = [REvent.renamed c d, REvent.renamed b c, REvent.renamed a b] ∧
    destSafe st.events ∧
    lookup st.fs d = some vc ∧ lookup st.fs c = some vb ∧
    lookup st.fs b = some va ∧ lookup st.fs a = none := by
  subst hst
  obtain ⟨x, rest, rfl⟩ : ∃ x rest, order = x :: rest := by
    cases order with
    | nil => exact absurd hperm.symm (by simp)
    | cons x rest => exact ⟨x, rest, rfl⟩
  have hx : x ∈ [a, b, c] := hperm.subset (List.mem_cons_self x rest)
  simp only [List.mem_cons, List.not_mem_nil, or_false] at hx
  rcases hx with rfl | rfl | rfl
  · have h1 : processOne gas9 false tmp x b
        ⟨[(x, b), (b, c), (c, d)], [(b, x), (c, b), (d, c)], [(x, va), (b, vb), (c, vc)], []⟩ =
        ⟨[], [(b, x), (c, b), (d, c)], [(b, va), (c, vb), (d, vc)],
          [REvent.renamed c d, REvent.renamed b c, REvent.renamed x b]⟩ := by
      simp [processOne, forwardWalk, backwardPass, lookup, erase, mset, renameFile, gas9,
        hab, hac, had, hbc, hbd, hcd, ha, hb, hc,
        Ne.symm hab, Ne.symm hac, Ne.symm had, Ne.symm hbc, Ne.symm hbd, Ne.symm hcd]
    rw [processRenames_cons _ _ _ _ _ _ b (by simp [lookup]) hab, h1,
      processRenames_nil_ops _ _ _ _ _ rfl]
    refine ⟨rfl, ?_, ?_, ?_, ?_, ?_⟩ <;>
      simp [destSafe, evDst, evSrc, lookup,
        hab, hac, had, hbc, hbd, hcd, Ne.symm hab, Ne.symm hac, Ne.symm had,
        Ne.symm hbc, Ne.symm hbd, Ne.symm hcd]
  · have h1 : processOne gas9 false tmp x c
        ⟨[(a, x), (x, c), (c, d)], [(x, a), (c, x), (d, c)], [(a, va), (x, vb), (c, vc)], []⟩ =
        ⟨[], [(x, a), (c, x), (d, c)], [(x, va), (c, vb), (d, vc)],
          [REvent.renamed c d, REvent.renamed x c, REvent.renamed a x]⟩ := by
      simp [processOne, forwardWalk, backwardPass, lookup, erase, mset, renameFile, gas9,
        hab, hac, had, hbc, hbd, hcd, ha, hb, hc,
        Ne.symm hab, Ne.symm hac, Ne.symm had, Ne.symm hbc, Ne.symm hbd, Ne.symm hcd]
    rw [processRenames_cons _ _ _ _ _ _ c (by simp [lookup, Ne.symm hab]) hbc, h1,
      processRenames_nil_ops _ _ _ _ _ rfl]
    refine ⟨rfl, ?_, ?_, ?_, ?_, ?_⟩ <;>
      simp [destSafe, evDst, evSrc, lookup,
        hab, hac, had, hbc, hbd, hcd, Ne.symm hab, Ne.symm hac, Ne.symm had,
        Ne.symm hbc, Ne.symm hbd, Ne.symm hcd]
  · have h1 : processOne gas9 false tmp x d
        ⟨[(a, b), (b, x), (x, d)], [(b, a), (x, b), (d, x)], [(a, va), (b, vb), (x, vc)], []⟩ =
        ⟨[], [(b, a), (x, b), (d, x)], [(b, va), (x, vb), (d, vc)],
          [REvent.renamed x d, REvent.renamed b x, REvent.renamed a b]⟩ := by
      simp [processOne, forwardWalk, backwardPass, lookup, erase, mset, renameFile, gas9,
        hab, hac, had, hbc, hbd, hcd, ha, hb, hc,
        Ne.symm hab, Ne.symm hac, Ne.symm had, Ne.symm hbc, Ne.symm hbd, Ne.symm hcd]
    rw [processRenames_cons _ _ _ _ _ _ d (by simp [lookup, Ne.symm hac, Ne.symm hbc]) hcd, h1,
      processRenames_nil_ops _ _ _ _ _ rfl]
    refine ⟨rfl, ?_, ?_, ?_, ?_, ?_⟩ <;>
      simp [destSafe, evDst, evSrc, lookup,
        hab, hac, had, hbc, hbd, hcd, Ne.symm hab, Ne.symm hac, Ne.symm had,
        Ne.symm hbc, Ne.symm hbd, Ne.symm hcd]

/-- Witness for C1 at a concrete chain. -/
theorem chain_renames_backward_witness :
    (processRenames gas9 false "T" ["a", "b", "c"]
      ⟨[("a", "b"), ("b", "c"), ("c", "d")], [("b", "a"), ("c", "b"), ("d", "c")],
        [("a", "va"), ("b", "vb"), ("c", "vc")], []⟩).events =
      [REvent.renamed "c" "d", REvent.renamed "b" "c", REvent.renamed "a" "b"] :=
  (chain_renames_backward "a" "b" "c" "d" "va" "vb" "vc" "T"
    (by decide) (by decide) (by decide) (by decide) (by decide) (by decide)
    (by decide) (by decide) (by decide) ["a", "b", "c"] (List.Perm.refl _) _ rfl).1

/-- C2.  For the cycle `a->b, b->c, c->a`, whichever live edge the map
iteration visits first: exactly one of the four performed renames has the
fresh temporary name as destination, all four operations are performed
renames (nothing skipped or failed, so no destination was occupied at
rename time apart from the empty temp placeholder), no destination is ever
written twice, the temp name is spliced into the reverse map as the
predecessor of the cycle start (the first visited key), and afterwards the
three original paths hold the rotated contents with the temp file gone. -/
theorem cycle_broken_by_temp (a b c va vb vc tmp : String)
    (hab : a ≠ b) (hac : a ≠ c) (hbc : b ≠ c)
    (ha : a ≠ "") (hb : b ≠ "") (hc : c ≠ "")
    (hta : tmp ≠ a) (htb : tmp ≠ b) (htc : tmp ≠ c) (ht : tmp ≠ "")
    (order : List String) (hperm : order.Perm [a, b, c]) (st : RenameState)
    (hst : st = processRenames gas9 false tmp order
      ⟨[(a, b), (b, c), (c, a)], [(b, a), (c, b), (a, c)], [(a, va), (b, vb), (c, vc)], []⟩) :
    (st.events.filter fun e => evDst e == tmp).length = 1 ∧
    st.events.length = 4 ∧
    (∀ e ∈ st.events, evRenamed e) ∧
    (st.events.map evDst).Nodup ∧
    lookup st.fs a = some vc ∧ lookup st.fs b = some va ∧
    lookup st.fs c = some vb ∧ lookup st.fs tmp = none ∧
    (∀ y rest2, order = y :: rest2 → lookup st.reverseOps y = some tmp) := by
  subst hst
  obtain ⟨x, rest, rfl⟩ : ∃ x rest, order = x :: rest := by
    cases order with
    | nil => exact absurd hperm.symm (by simp)
    | cons x rest => exact ⟨x, rest, rfl⟩
  have hx : x ∈ [a, b, c] := hperm.subset (List.mem_cons_self x rest)
  simp only [List.mem_cons, List.not_mem_nil, or_false] at hx
  rcases hx with rfl | rfl | rfl
  · have h1 : processOne gas9 false tmp x b
        ⟨[(x, b), (b, c), (c, x)], [(b, x), (c, b), (x, c)], [(x, va), (b, vb), (c, vc)], []⟩ =
        ⟨[], [(x, tmp), (b, x), (c, b)], [(x, vc), (b, va), (c, vb)],
          [REvent.renamed c tmp, REvent.renamed b c, REvent.renamed x b,
            REvent.renamed tmp x]⟩ := by
      simp [processOne, forwardWalk, backwardPass, lookup, erase, mset, renameFile, gas9,
        hab, hac, hbc, ha, hb, hc, hta, htb, htc, ht,
        Ne.symm hab, Ne.symm hac, Ne.symm hbc, Ne.symm hta, Ne.symm htb, Ne.symm htc]
    rw [processRenames_cons _ _ _ _ _ _ b (by simp [lookup]) hab, h1,
      processRenames_nil_ops _ _ _ _ _ rfl]
    refine ⟨?_, ?_, ?_, ?_, ?_, ?_, ?_, ?_, ?_⟩ <;>
      simp [destSafe, evDst, evSrc, evRenamed, lookup,
        hab, hac, hbc, hta, htb, htc, Ne.symm hab, Ne.symm hac, Ne.symm hbc,
        Ne.symm hta, Ne.symm htb, Ne.symm htc]
  · have h1 : processOne gas9 false tmp x c
        ⟨[(a, x), (x, c), (c, a)], [(x, a), (c, x), (a, c)], [(a, va), (x, vb), (c, vc)], []⟩ =
        ⟨[], [(x, tmp), (c, x), (a, c)], [(x, va), (c, vb), (a, vc)],
          [REvent.renamed a tmp, REvent.renamed c a, REvent.renamed x c,
            REvent.renamed tmp x]⟩ := by
      simp [processOne, forwardWalk, backwardPass, lookup, erase, mset, renameFile, gas9,
        hab, hac, hbc, ha, hb, hc, hta, htb, htc, ht,
        Ne.symm hab, Ne.symm hac, Ne.symm hbc, Ne.symm hta, Ne.symm htb, Ne.symm htc]
    rw [processRenames_cons _ _ _ _ _ _ c (by simp [lookup, Ne.symm hab]) hbc, h1,
      processRenames_nil_ops _ _ _ _ _ rfl]
    refine ⟨?_, ?_, ?_, ?_, ?_, ?_, ?_, ?_, ?_⟩ <;>
      simp [destSafe, evDst, evSrc, evRenamed, lookup,
        hab, hac, hbc, hta, htb, htc, Ne.symm hab, Ne.symm hac, Ne.symm hbc,
        Ne.symm hta, Ne.symm htb, Ne.symm htc]
  · have h1 : processOne gas9 false tmp x a
        ⟨[(a, b), (b, x), (x, a)], [(b, a), (x, b), (a, x)], [(a, va), (b, vb), (x, vc)], []⟩ =
        ⟨[], [(x, tmp), (b, a), (a, x)], [(x, vb), (a, vc), (b, va)],
          [REvent.renamed b tmp, REvent.renamed a b, REvent.renamed x a,
            REvent.renamed tmp x]⟩ := by
      simp [processOne, forwardWalk, backwardPass, lookup, erase, mset, renameFile, gas9,
        hab, hac, hbc, ha, hb, hc, hta, htb, htc, ht,
        Ne.symm hab, Ne.symm hac, Ne.symm hbc, Ne.symm hta, Ne.symm htb, Ne.symm htc]
    rw [processRenames_cons _ _ _ _ _ _ a (by simp [lookup, Ne.symm hac, Ne.symm hbc]) (Ne.symm hac), h1,
      processRenames_nil_ops _ _ _ _ _ rfl]
    refine ⟨?_, ?_, ?_, ?_, ?_, ?_, ?_, ?_, ?_⟩ <;>
      simp [destSafe, evDst, evSrc, evRenamed, lookup,
        hab, hac, hbc, hta, htb, htc, Ne.symm hab, Ne.symm hac, Ne.symm hbc,
        Ne.symm hta, Ne.symm htb, Ne.symm htc]

/-- Witness for C2 at a concrete cycle. -/
theorem cycle_broken_by_temp_witness :
    (processRenames gas9 false "T" ["a", "b", "c"]
      ⟨[("a", "b"), ("b", "c"), ("c", "a")], [("b", "a"), ("c", "b"), ("a", "c")],
        [("a", "va"), ("b", "vb"), ("c", "vc")], []⟩).events.length = 4 :=
  (cycle_broken_by_temp "a" "b" "c" "va" "vb" "vc" "T"
    (by decide) (by decide) (by decide) (by decide) (by decide) (by decide)
    (by decide) (by decide) (by decide) (by decide)
    ["a", "b", "c"] (List.Perm.refl _) _ rfl).2.1

/-- C9.  Backward pass with overwriting disabled: in the chain
`a->b, b->c, c->d` over a filesystem where `d` already exists (and `b` is
absent), the rename `c->d` is skipped and logged, `c` and `d` are left
unchanged on disk, and the resolver goes on processing the remaining links
of the same chain (`b->c` is processed and `a->b` is actually renamed). -/
theorem skip_on_existing_destination (a b c d va vc vd tmp : String)
    (hab : a ≠ b) (hac : a ≠ c) (had : a ≠ d) (hbc : b ≠ c) (hbd : b ≠ d) (hcd : c ≠ d)
    (ha : a ≠ "") (hb : b ≠ "") (hc : c ≠ "") (st : RenameState)
    (hst : st = processRenames gas9 false tmp [a, b, c]
      ⟨[(a, b), (b, c), (c, d)], [(b, a), (c, b), (d, c)], [(a, va), (c, vc), (d, vd)], []⟩) :
    st.events = [REvent.skipped c d, REvent.skipped b c, REvent.renamed a b] ∧
    lookup st.fs c = some vc ∧ lookup st.fs d = some vd ∧
    lookup st.fs b = some va ∧ lookup st.fs a = none := by
  subst hst
  have h1 : processOne gas9 false tmp a b
      ⟨[(a, b), (b, c), (c, d)], [(b, a), (c, b), (d, c)], [(a, va), (c, vc), (d, vd)], []⟩ =
      ⟨[], [(b, a), (c, b), (d, c)], [(b, va), (c, vc), (d, vd)],
        [REvent.skipped c d, REvent.skipped b c, REvent.renamed a b]⟩ := by
    simp [processOne, forwardWalk, backwardPass, lookup, erase, mset, renameFile, gas9,
      hab, hac, had, hbc, hbd, hcd, ha, hb, hc,
      Ne.symm hab, Ne.symm hac, Ne.symm had, Ne.symm hbc, Ne.symm hbd, Ne.symm hcd]
  rw [processRenames_cons _ _ _ _ _ _ b (by simp [lookup]) hab, h1,
    processRenames_nil_ops _ _ _ _ _ rfl]
  refine ⟨rfl, ?_, ?_, ?_, ?_⟩ <;>
    simp [lookup, hab, hac, had, hbc, hbd, hcd, Ne.symm hab, Ne.symm hac, Ne.symm had,
      Ne.symm hbc, Ne.symm hbd, Ne.symm hcd]

/-! ## Helper lemmas for the conflict-loop proofs -/

/-- A roll on a file whose open succeeds and whose current block read does
not fail: the generic success equation. -/
theorem rollingChecksum_clean (c : Bytes) (ff : Option Nat) (op : Bool) (path : String)
    (h : Bytes) (n p : Nat) (hs : Bytes) (hf : readAtErr ⟨false, c, ff⟩ p = false) :
    rollingChecksum ⟨false, c, ff⟩ op ⟨path, h⟩ ⟨n, p, hs⟩ =
      ((if c.length < (p + 1) * BLOCKSIZE then RollErr.eof else .ok), true,
        ⟨path, h ++ readChunk c p⟩, ⟨n, p + 1, h ++ readChunk c p⟩) := by
  rw [rollingChecksum, if_neg (by simp), if_neg (by simp [hf])]

/-- Unfolding equations for `insertDummies`. -/
theorem insertDummies_zero (key : Nat → partialHash) (p : Nat) (entries : EMap) :
    insertDummies key p 0 entries = entries := rfl

/-- Unfolding equation for a positive count of dummy inserts. -/
theorem insertDummies_succ (key : Nat → partialHash) (p k : Nat) (entries : EMap) :
    insertDummies key p (k + 1) entries =
      insertDummies key (p + 1) k (mset entries (key p) ⟨none, none⟩) := rfl

/-- A file without injected read errors never fails a block read. -/
theorem readAtErr_none (c : Bytes) (p : Nat) : readAtErr ⟨false, c, none⟩ p = false := rfl

/-- Accumulating one more chunk extends the taken prefix by one block. -/
theorem take_append_chunk (c : Bytes) (p : Nat) :
    c.take (p * BLOCKSIZE) ++ readChunk c p = c.take ((p + 1) * BLOCKSIZE) := by
  rw [readChunk, Nat.succ_mul, List.take_add]

/-- Membership after `erase`. -/
theorem mem_erase {α β : Type} [DecidableEq α] (m : List (α × β)) (x : α) (kv : α × β)
    (h : kv ∈ erase m x) : kv ∈ m ∧ kv.1 ≠ x := by
  induction m with
  | nil => simp [erase] at h
  | cons hd tl ih =>
    obtain ⟨a, b⟩ := hd
    rw [erase] at h
    by_cases hax : a = x
    · rw [if_pos hax] at h
      rcases ih h with ⟨h1, h2⟩
      exact ⟨List.mem_cons_of_mem _ h1, h2⟩
    · rw [if_neg hax] at h
      rcases List.mem_cons.1 h with rfl | h2
      · exact ⟨List.mem_cons_self _ _, hax⟩
      · rcases ih h2 with ⟨h3, h4⟩
        exact ⟨List.mem_cons_of_mem _ h3, h4⟩

/-- Membership after `mset`. -/
theorem mem_mset {α β : Type} [DecidableEq α] (m : List (α × β)) (k : α) (v : β) (kv : α × β)
    (h : kv ∈ mset m k v) : kv = (k, v) ∨ (kv ∈ m ∧ kv.1 ≠ k) := by
  rcases List.mem_cons.1 h with h1 | h1
  · exact Or.inl h1
  · exact Or.inr (mem_erase m k kv h1)

/-- `lookup` after `erase` at a different key. -/
theorem lookup_erase_ne {α β : Type} [DecidableEq α] (m : List (α × β)) (k x : α)
    (h : x ≠ k) : lookup (erase m k) x = lookup m x := by
  induction m with
  | nil => rfl
  | cons hd tl ih =>
    obtain ⟨a, b⟩ := hd
    rw [erase]
    by_cases hak : a = k
    · rw [if_pos hak, ih, lookup, if_neg (by rw [hak]; exact h)]
    · rw [if_neg hak, lookup, lookup]
      by_cases hxa : x = a
      · rw [if_pos hxa, if_pos hxa]
      · rw [if_neg hxa, if_neg hxa, ih]

/-- `lookup` after `mset` at the written key. -/
theorem lookup_mset_self {α β : Type} [DecidableEq α] (m : List (α × β)) (k : α) (v : β) :
    lookup (mset m k v) k = some v := by
  rw [mset, lookup, if_pos rfl]

/-- `lookup` after `mset` at another key. -/
theorem lookup_mset_ne {α β : Type} [DecidableEq α] (m : List (α × β)) (k x : α) (v : β)
    (h : x ≠ k) : lookup (mset m k v) x = lookup m x := by
  rw [mset, lookup, if_neg h, lookup_erase_ne _ _ _ h]

/-- Membership after a block of dummy inserts: either the entry is a dummy
or it was already present at a key untouched by the inserts. -/
theorem mem_insertDummies (key : Nat → partialHash) :
    ∀ (k p : Nat) (entries : EMap) (kv : partialHash × fileMatch),
      kv ∈ insertDummies key p k entries →
      kv.2 = ⟨none, none⟩ ∨
        (kv ∈ entries ∧ ∀ j, p ≤ j → j < p + k → kv.1 ≠ key j) := by
  intro k
  induction k with
  | zero =>
    intro p entries kv h
    exact Or.inr ⟨h, fun j h1 h2 => absurd h2 (by omega)⟩
  | succ k ih =>
    intro p entries kv h
    rw [insertDummies] at h
    rcases ih (p + 1) _ kv h with hd | ⟨hm, hj⟩
    · exact Or.inl hd
    · rcases mem_mset _ _ _ _ hm with rfl | ⟨hm2, hne⟩
      · exact Or.inl rfl
      · refine Or.inr ⟨hm2, fun j h1 h2 => ?_⟩
        rcases Nat.eq_or_lt_of_le h1 with rfl | hlt
        · exact hne
        · exact hj j hlt (by omega)

/-- The source conflict loop exits immediately when its guard fails. -/
theorem sourceConflict_exit (disk : String → MFile) (gas : List Unit) (iID : fileID)
    (iKey : partialHash) (op1 : Bool) (cID : fileID) (cKey : partialHash) (op2 : Bool)
    (e : RollErr) (entries : EMap) (h : iKey ≠ cKey ∨ e ≠ .ok) :
    sourceConflict disk gas iID iKey op1 cID cKey op2 e entries =
      .finish iID iKey cID cKey e entries := by
  cases gas with
  | nil => rfl
  | cons u gas =>
    rw [sourceConflict, if_neg]
    rintro ⟨h1, h2⟩
    rcases h with h | h
    · exact h h1
    · exact h h2

/-- The dummy-skip loop stops at once on a non-dummy (or EOF-terminal)
entry, whatever the gas. -/
theorem dummySkip_found (disk : String → MFile) (gas : List Unit) (fid : fileID)
    (key : partialHash) (op : Bool) (e : RollErr) (entries : EMap) (v : fileMatch)
    (hv : lookup entries key = some v) (hcond : ¬(v.sourceID = none ∧ e ≠ .eof)) :
    dummySkip disk gas fid key op e entries = .done fid key op e (some v) := by
  cases gas with
  | nil => rw [dummySkip, hv]
  | cons u gas =>
    rw [dummySkip, hv]
    simp only [hcond, if_neg, if_false]

/-- The lock-step source conflict loop on two byte-identical clean files:
starting in lock-step at block `p`, it marks every shared fingerprint from
`p` up to `size / BLOCKSIZE` dummy and exits with both sides exhausted,
equal, at roll count `size / BLOCKSIZE + 1` with the full contents fed. -/
theorem sourceConflict_identical (disk : String → MFile) (c : Bytes) (p1 p2 : String)
    (h1 : disk p1 = ⟨false, c, none⟩) (h2 : disk p2 = ⟨false, c, none⟩) :
    ∀ (gas : List Unit) (p : Nat) (op1 op2 : Bool) (entries : EMap),
      p ≤ c.length / BLOCKSIZE → c.length / BLOCKSIZE + 2 - p ≤ gas.length →
      sourceConflict disk gas ⟨p2, c.take (p * BLOCKSIZE)⟩
          ⟨c.length, p, c.take (p * BLOCKSIZE)⟩ op1 ⟨p1, c.take (p * BLOCKSIZE)⟩
          ⟨c.length, p, c.take (p * BLOCKSIZE)⟩ op2 .ok entries =
        .finish ⟨p2, c⟩ ⟨c.length, c.length / BLOCKSIZE + 1, c⟩ ⟨p1, c⟩
          ⟨c.length, c.length / BLOCKSIZE + 1, c⟩ .eof
          (insertDummies (fun j => ⟨c.length, j, c.take (j * BLOCKSIZE)⟩) p
            (c.length / BLOCKSIZE + 1 - p) entries) := by
  intro gas
  induction gas with
  | nil =>
    intro p op1 op2 entries hp hgas
    rw [List.length_nil] at hgas
    exact absurd hgas (by omega)
  | cons u gas ih =>
    intro p op1 op2 entries hp hgas
    rw [List.length_cons] at hgas
    rw [sourceConflict, if_pos ⟨rfl, rfl⟩]
    simp only [h1, h2]
    rw [rollingChecksum_clean c none op1 p2 _ _ _ _ (readAtErr_none c p),
      rollingChecksum_clean c none op2 p1 _ _ _ _ (readAtErr_none c p)]
    simp only [take_append_chunk]
    rcases Nat.lt_or_eq_of_le hp with hlt | rfl
    · have hok : ¬(c.length < (p + 1) * BLOCKSIZE) := by
        have ha : (p + 1) * BLOCKSIZE ≤ (c.length / BLOCKSIZE) * BLOCKSIZE :=
          Nat.mul_le_mul_right _ (by omega)
        have hb := Nat.div_mul_le_self c.length BLOCKSIZE
        omega
      rw [if_neg hok, if_neg (by simp), if_neg (by simp),
        ih (p + 1) true true _ (by omega) (by omega)]
      have hcount : c.length / BLOCKSIZE + 1 - p = (c.length / BLOCKSIZE + 1 - (p + 1)) + 1 := by
        omega
      rw [hcount, insertDummies_succ]
    · have heof : c.length < (c.length / BLOCKSIZE + 1) * BLOCKSIZE := by
        simp only [BLOCKSIZE]
        omega
      rw [if_pos heof, if_neg (by simp), if_neg (by simp),
        sourceConflict_exit _ _ _ _ _ _ _ _ _ _ (Or.inr (by simp))]
      have htake : c.take ((c.length / BLOCKSIZE + 1) * BLOCKSIZE) = c := by
        apply List.take_of_length_le
        simp only [BLOCKSIZE]
        omega
      rw [htake]
      have hcount : c.length / BLOCKSIZE + 1 - c.length / BLOCKSIZE = 0 + 1 := by omega
      rw [hcount, insertDummies_succ, insertDummies_zero]

/-- The error of a successful roll is never the I/O error. -/
theorem eofOk_ne_ioerr (b : Prop) [Decidable b] :
    (if b then RollErr.eof else .ok) ≠ .ioerr := by
  split <;> simp

/-- A roll whose block read fails with a non-EOF error returns everything
unchanged. -/
theorem rollingChecksum_readfail (c : Bytes) (ff : Option Nat) (op : Bool) (fid : fileID)
    (key : partialHash) (hf : readAtErr ⟨false, c, ff⟩ key.pos = true) :
    rollingChecksum ⟨false, c, ff⟩ op fid key = (.ioerr, true, fid, key) := by
  rw [rollingChecksum, if_neg (by simp), if_pos hf]

/-- Two files whose chunks agree strictly below `d` have equal taken
prefixes up to block `d`. -/
theorem take_eq_of_chunks_eq (c1 c2 : Bytes) (d : Nat)
    (hmin : ∀ q, q < d → readChunk c1 q = readChunk c2 q) :
    ∀ p, p ≤ d → c1.take (p * BLOCKSIZE) = c2.take (p * BLOCKSIZE) := by
  intro p
  induction p with
  | zero => intro _; rfl
  | succ p ih =>
    intro hp
    rw [← take_append_chunk, ← take_append_chunk, ih (by omega), hmin p (by omega)]

/-- A block where two same-length files differ lies inside the files. -/
theorem chunk_ne_lt_length (c1 c2 : Bytes) (n d : Nat) (hn1 : c1.length = n)
    (hn2 : c2.length = n) (hd : readChunk c1 d ≠ readChunk c2 d) :
    d * BLOCKSIZE < n := by
  by_contra hcon
  push_neg at hcon
  apply hd
  rw [readChunk, readChunk, List.drop_eq_nil_of_le (by omega),
    List.drop_eq_nil_of_le (by omega)]

/-- The source conflict loop on two clean same-size files whose first
differing block is `d`: it stays in lock-step through block `d`, marking
blocks `p..d` dummy, and exits just after the roll of block `d` with the
two sides at roll count `d+1` carrying their own diverged digests (the
input side reads `c2`, the conflicting side `c1`). -/
theorem sourceConflict_diverge (disk : String → MFile) (c1 c2 : Bytes) (p1 p2 : String)
    (h1 : disk p1 = ⟨false, c1, none⟩) (h2 : disk p2 = ⟨false, c2, none⟩) (n d : Nat)
    (hn1 : c1.length = n) (hn2 : c2.length = n)
    (hmin : ∀ q, q < d → readChunk c1 q = readChunk c2 q)
    (hd : readChunk c1 d ≠ readChunk c2 d) :
    ∀ (gas : List Unit) (p : Nat) (op1 op2 : Bool) (entries : EMap),
      p ≤ d → d + 2 - p ≤ gas.length →
      sourceConflict disk gas ⟨p2, c1.take (p * BLOCKSIZE)⟩ ⟨n, p, c1.take (p * BLOCKSIZE)⟩
          op1 ⟨p1, c1.take (p * BLOCKSIZE)⟩ ⟨n, p, c1.take (p * BLOCKSIZE)⟩ op2 .ok entries =
        .finish ⟨p2, c1.take (d * BLOCKSIZE) ++ readChunk c2 d⟩
          ⟨n, d + 1, c1.take (d * BLOCKSIZE) ++ readChunk c2 d⟩
          ⟨p1, c1.take ((d + 1) * BLOCKSIZE)⟩ ⟨n, d + 1, c1.take ((d + 1) * BLOCKSIZE)⟩
          (if n < (d + 1) * BLOCKSIZE then RollErr.eof else .ok)
          (insertDummies (fun j => ⟨n, j, c1.take (j * BLOCKSIZE)⟩) p (d + 1 - p) entries) := by
  have hdn : d * BLOCKSIZE < n := chunk_ne_lt_length c1 c2 n d hn1 hn2 hd
  have hne2 : (⟨n, d + 1, c1.take (d * BLOCKSIZE) ++ readChunk c2 d⟩ : partialHash) ≠
      ⟨n, d + 1, c1.take ((d + 1) * BLOCKSIZE)⟩ := by
    intro heq
    rw [partialHash.mk.injEq] at heq
    rcases heq with ⟨-, -, heq⟩
    rw [← take_append_chunk] at heq
    exact hd (List.append_cancel_left heq).symm
  intro gas
  induction gas with
  | nil =>
    intro p op1 op2 entries hp hgas
    rw [List.length_nil] at hgas
    exact absurd hgas (by omega)
  | cons u gas ih =>
    intro p op1 op2 entries hp hgas
    rw [List.length_cons] at hgas
    rw [sourceConflict, if_pos ⟨rfl, rfl⟩]
    simp only [h1, h2]
    rw [rollingChecksum_clean c2 none op1 p2 _ _ _ _ (readAtErr_none c2 p),
      rollingChecksum_clean c1 none op2 p1 _ _ _ _ (readAtErr_none c1 p), hn1, hn2]
    rcases Nat.lt_or_eq_of_le hp with hlt | rfl
    · rw [← hmin p hlt]
      simp only [take_append_chunk]
      have hok : ¬(n < (p + 1) * BLOCKSIZE) := by
        have ha : (p + 1) * BLOCKSIZE ≤ d * BLOCKSIZE := Nat.mul_le_mul_right _ (by omega)
        omega
      rw [if_neg hok, if_neg (by simp), if_neg (by simp),
        ih (p + 1) true true _ (by omega) (by omega)]
      have hcount : d + 1 - p = (d + 1 - (p + 1)) + 1 := by omega
      rw [hcount, insertDummies_succ]
    · rw [take_append_chunk]
      rw [if_neg (eofOk_ne_ioerr _), if_neg (eofOk_ne_ioerr _),
        sourceConflict_exit _ _ _ _ _ _ _ _ _ _ (Or.inl hne2)]
      have hcount : p + 1 - p = 0 + 1 := by omega
      rw [hcount, insertDummies_succ, insertDummies_zero]

/-- The source conflict loop when the *input* side fails its read at block
`d` (both files clean and chunk-equal strictly below `d`): the loop runs in
lock-step up to block `d`, marks blocks `p..d` dummy and aborts the visit
via the input-error return, so neither file is reinserted. -/
theorem sourceConflict_input_error (disk : String → MFile) (c1 c2 : Bytes) (p1 p2 : String)
    (n d : Nat) (h1 : disk p1 = ⟨false, c1, none⟩) (h2 : disk p2 = ⟨false, c2, some d⟩)
    (hn1 : c1.length = n) (hn2 : c2.length = n)
    (hmin : ∀ q, q < d → readChunk c1 q = readChunk c2 q) (hdn : d * BLOCKSIZE ≤ n) :
    ∀ (gas : List Unit) (p : Nat) (op1 op2 : Bool) (entries : EMap),
      p ≤ d → d + 2 - p ≤ gas.length →
      sourceConflict disk gas ⟨p2, c1.take (p * BLOCKSIZE)⟩ ⟨n, p, c1.take (p * BLOCKSIZE)⟩
          op1 ⟨p1, c1.take (p * BLOCKSIZE)⟩ ⟨n, p, c1.take (p * BLOCKSIZE)⟩ op2 .ok entries =
        .inputErr (insertDummies (fun j => ⟨n, j, c1.take (j * BLOCKSIZE)⟩) p
          (d + 1 - p) entries) := by
  intro gas
  induction gas with
  | nil =>
    intro p op1 op2 entries hp hgas
    rw [List.length_nil] at hgas
    exact absurd hgas (by omega)
  | cons u gas ih =>
    intro p op1 op2 entries hp hgas
    rw [List.length_cons] at hgas
    rw [sourceConflict, if_pos ⟨rfl, rfl⟩]
    simp only [h1, h2]
    rcases Nat.lt_or_eq_of_le hp with hlt | rfl
    · rw [rollingChecksum_clean c2 (some d) op1 p2 _ _ _ _
          (by simp [readAtErr]; omega),
        rollingChecksum_clean c1 none op2 p1 _ _ _ _ (readAtErr_none c1 p), hn1, hn2]
      rw [← hmin p hlt]
      simp only [take_append_chunk]
      have hok : ¬(n < (p + 1) * BLOCKSIZE) := by
        have ha : (p + 1) * BLOCKSIZE ≤ d * BLOCKSIZE := Nat.mul_le_mul_right _ (by omega)
        omega
      rw [if_neg hok, if_neg (by simp), if_neg (by simp),
        ih (p + 1) true true _ (by omega) (by omega)]
      have hcount : d + 1 - p = (d + 1 - (p + 1)) + 1 := by omega
      rw [hcount, insertDummies_succ]
    · rw [rollingChecksum_readfail c2 (some p) op1 _ _ (by simp [readAtErr]),
        if_pos rfl]
      have hcount : p + 1 - p = 0 + 1 := by omega
      rw [hcount, insertDummies_succ, insertDummies_zero]

/-- The source conflict loop when the *conflicting* side fails its read at
block `d`: the input has already advanced to roll count `d+1`, the
conflicting side is stuck at `d`, and the loop breaks with the I/O error,
after which the visitor reinserts only the input. -/
theorem sourceConflict_conflict_error (disk : String → MFile) (c1 c2 : Bytes) (p1 p2 : String)
    (n d : Nat) (h1 : disk p1 = ⟨false, c1, some d⟩) (h2 : disk p2 = ⟨false, c2, none⟩)
    (hn1 : c1.length = n) (hn2 : c2.length = n)
    (hmin : ∀ q, q < d → readChunk c1 q = readChunk c2 q) (hdn : d * BLOCKSIZE ≤ n) :
    ∀ (gas : List Unit) (p : Nat) (op1 op2 : Bool) (entries : EMap),
      p ≤ d → d + 2 - p ≤ gas.length →
      sourceConflict disk gas ⟨p2, c1.take (p * BLOCKSIZE)⟩ ⟨n, p, c1.take (p * BLOCKSIZE)⟩
          op1 ⟨p1, c1.take (p * BLOCKSIZE)⟩ ⟨n, p, c1.take (p * BLOCKSIZE)⟩ op2 .ok entries =
        .finish ⟨p2, c1.take (d * BLOCKSIZE) ++ readChunk c2 d⟩
          ⟨n, d + 1, c1.take (d * BLOCKSIZE) ++ readChunk c2 d⟩
          ⟨p1, c1.take (d * BLOCKSIZE)⟩ ⟨n, d, c1.take (d * BLOCKSIZE)⟩ .ioerr
          (insertDummies (fun j => ⟨n, j, c1.take (j * BLOCKSIZE)⟩) p (d + 1 - p) entries) := by
  intro gas
  induction gas with
  | nil =>
    intro p op1 op2 entries hp hgas
    rw [List.length_nil] at hgas
    exact absurd hgas (by omega)
  | cons u gas ih =>
    intro p op1 op2 entries hp hgas
    rw [List.length_cons] at hgas
    rw [sourceConflict, if_pos ⟨rfl, rfl⟩]
    simp only [h1, h2]
    rcases Nat.lt_or_eq_of_le hp with hlt | rfl
    · rw [rollingChecksum_clean c2 none op1 p2 _ _ _ _ (readAtErr_none c2 p),
        rollingChecksum_clean c1 (some d) op2 p1 _ _ _ _
          (by simp [readAtErr]; omega), hn1, hn2]
      rw [← hmin p hlt]
      simp only [take_append_chunk]
      have hok : ¬(n < (p + 1) * BLOCKSIZE) := by
        have ha : (p + 1) * BLOCKSIZE ≤ d * BLOCKSIZE := Nat.mul_le_mul_right _ (by omega)
        omega
      rw [if_neg hok, if_neg (by simp), if_neg (by simp),
        ih (p + 1) true true _ (by omega) (by omega)]
      have hcount : d + 1 - p = (d + 1 - (p + 1)) + 1 := by omega
      rw [hcount, insertDummies_succ]
    · rw [rollingChecksum_clean c2 none op1 p2 _ _ _ _ (readAtErr_none c2 p), hn2,
        if_neg (eofOk_ne_ioerr _),
        rollingChecksum_readfail c1 (some p) op2 _ _ (by simp [readAtErr]),
        if_pos rfl]
      have hcount : p + 1 - p = 0 + 1 := by omega
      rw [hcount, insertDummies_succ, insertDummies_zero]

/-- The diverged fingerprints of the two sides differ. -/
theorem diverged_keys_ne (c1 c2 : Bytes) (n d : Nat)
    (hd : readChunk c1 d ≠ readChunk c2 d) :
    (⟨n, d + 1, c1.take (d * BLOCKSIZE) ++ readChunk c2 d⟩ : partialHash) ≠
      ⟨n, d + 1, c1.take ((d + 1) * BLOCKSIZE)⟩ := by
  intro heq
  rw [partialHash.mk.injEq] at heq
  rcases heq with ⟨-, -, heq⟩
  rw [← take_append_chunk] at heq
  exact hd (List.append_cancel_left heq).symm

/-- The input side's diverged prefix, written over its own contents. -/
theorem diverged_input_take (c1 c2 : Bytes) (d : Nat)
    (hmin : ∀ q, q < d → readChunk c1 q = readChunk c2 q) :
    c1.take (d * BLOCKSIZE) ++ readChunk c2 d = c2.take ((d + 1) * BLOCKSIZE) := by
  rw [take_eq_of_chunks_eq c1 c2 d hmin d (Nat.le_refl d), take_append_chunk]

/-- C8 fails on the code: in a two-file SOURCE conflict where the new
(input) file's read fails, the visitor returns at once and the existing
conflicting file is *not* reinserted — the table retains only the dummy at
the shared fingerprint, so both files are dropped. -/
theorem conflict_dropped_on_input_error_counterexample :
    (sourceVisitFile (fun s => if s = "b" then ⟨false, [1], some 0⟩ else ⟨false, [1], none⟩)
      [(), ()] "b" 1
      (sourceVisitFile (fun s => if s = "b" then ⟨false, [1], some 0⟩ else ⟨false, [1], none⟩)
        [(), ()] "a" 1 ⟨[], []⟩)).entries = [(⟨1, 0, []⟩, ⟨none, none⟩)] := by
  decide

/-- C8 amended.  When the lock-step SOURCE conflict loop ends:
(1) on fingerprint divergence both files are reinserted as fresh entries at
their respective final fingerprints; (2) on a read error of the existing
conflicting file, the input is reinserted and the conflicting file is
dropped; (3) on a read error of the input file, the visit aborts and
*both* files are dropped (the conflicting file is not reinserted). -/
theorem conflict_resolution_on_divergence_or_error :
    (∀ (disk : String → MFile) (c1 c2 : Bytes) (p1 p2 : String) (n d : Nat)
      (gas : List Unit) (st : SState),
      disk p1 = ⟨false, c1, none⟩ → disk p2 = ⟨false, c2, none⟩ →
      c1.length = n → c2.length = n →
      (∀ q, q < d → readChunk c1 q = readChunk c2 q) →
      readChunk c1 d ≠ readChunk c2 d → d + 2 ≤ gas.length →
      st = sourceVisitFile disk gas p2 n (sourceVisitFile disk gas p1 n ⟨[], []⟩) →
      lookup st.entries ⟨n, d + 1, c2.take ((d + 1) * BLOCKSIZE)⟩ =
          some ⟨some ⟨p2, c2.take ((d + 1) * BLOCKSIZE)⟩, none⟩ ∧
      lookup st.entries ⟨n, d + 1, c1.take ((d + 1) * BLOCKSIZE)⟩ =
          some ⟨some ⟨p1, c1.take ((d + 1) * BLOCKSIZE)⟩, none⟩) ∧
    (∀ (disk : String → MFile) (c1 c2 : Bytes) (p1 p2 : String) (n d : Nat)
      (gas : List Unit) (st : SState),
      disk p1 = ⟨false, c1, some d⟩ → disk p2 = ⟨false, c2, none⟩ → p1 ≠ p2 →
      c1.length = n → c2.length = n →
      (∀ q, q < d → readChunk c1 q = readChunk c2 q) →
      d * BLOCKSIZE ≤ n → d + 2 ≤ gas.length →
      st = sourceVisitFile disk gas p2 n (sourceVisitFile disk gas p1 n ⟨[], []⟩) →
      lookup st.entries ⟨n, d + 1, c2.take ((d + 1) * BLOCKSIZE)⟩ =
          some ⟨some ⟨p2, c2.take ((d + 1) * BLOCKSIZE)⟩, none⟩ ∧
      ∀ kv ∈ st.entries, ∀ f, kv.2.sourceID = some f → f.path ≠ p1) ∧
    (∀ (disk : String → MFile) (c1 c2 : Bytes) (p1 p2 : String) (n d : Nat)
      (gas : List Unit) (st : SState),
      disk p1 = ⟨false, c1, none⟩ → disk p2 = ⟨false, c2, some d⟩ →
      c1.length = n → c2.length = n →
      (∀ q, q < d → readChunk c1 q = readChunk c2 q) →
      d * BLOCKSIZE ≤ n → d + 2 ≤ gas.length →
      st = sourceVisitFile disk gas p2 n (sourceVisitFile disk gas p1 n ⟨[], []⟩) →
      ∀ kv ∈ st.entries, kv.2.sourceID = none) := by
  refine ⟨?_, ?_, ?_⟩
  · intro disk c1 c2 p1 p2 n d gas st h1 h2 hn1 hn2 hmin hd hgas hst
    subst hst
    have hst1 : sourceVisitFile disk gas p1 n ⟨[], []⟩ =
        ⟨[(⟨n, 0, []⟩, ⟨some ⟨p1, []⟩, none⟩)], []⟩ := by
      unfold sourceVisitFile
      dsimp only [newFileEntry]
      rw [dummySkip_nil_entries]
      rfl
    rw [hst1]
    have hconf := sourceConflict_diverge disk c1 c2 p1 p2 h1 h2 n d hn1 hn2 hmin hd gas
      0 false false [(⟨n, 0, []⟩, ⟨some ⟨p1, []⟩, none⟩)] (Nat.zero_le _) (by simpa using hgas)
    rw [show c1.take (0 * BLOCKSIZE) = [] from rfl] at hconf
    unfold sourceVisitFile
    dsimp only [newFileEntry]
    rw [dummySkip_found disk gas _ _ false .ok _ ⟨some ⟨p1, []⟩, none⟩
      (by simp [lookup]) (by simp)]
    dsimp only
    rw [hconf]
    dsimp only
    rw [if_neg (by rintro ⟨heq, -⟩; exact diverged_keys_ne c1 c2 n d hd heq),
      if_neg (eofOk_ne_ioerr _)]
    constructor
    · rw [← diverged_input_take c1 c2 d hmin, lookup_mset_ne _ _ _ _
        (diverged_keys_ne c1 c2 n d hd), lookup_mset_self]
    · rw [lookup_mset_self]
  · intro disk c1 c2 p1 p2 n d gas st h1 h2 hne hn1 hn2 hmin hdn hgas hst
    subst hst
    have hst1 : sourceVisitFile disk gas p1 n ⟨[], []⟩ =
        ⟨[(⟨n, 0, []⟩, ⟨some ⟨p1, []⟩, none⟩)], []⟩ := by
      unfold sourceVisitFile
      dsimp only [newFileEntry]
      rw [dummySkip_nil_entries]
      rfl
    rw [hst1]
    have hconf := sourceConflict_conflict_error disk c1 c2 p1 p2 n d h1 h2 hn1 hn2 hmin hdn
      gas 0 false false [(⟨n, 0, []⟩, ⟨some ⟨p1, []⟩, none⟩)] (Nat.zero_le _)
      (by simpa using hgas)
    rw [show c1.take (0 * BLOCKSIZE) = [] from rfl] at hconf
    unfold sourceVisitFile
    dsimp only [newFileEntry]
    rw [dummySkip_found disk gas _ _ false .ok _ ⟨some ⟨p1, []⟩, none⟩
      (by simp [lookup]) (by simp)]
    dsimp only
    rw [hconf]
    dsimp only
    rw [if_neg (by
        rintro ⟨heq, -⟩
        rw [partialHash.mk.injEq] at heq
        omega),
      if_pos rfl]
    constructor
    · rw [← diverged_input_take c1 c2 d hmin, lookup_mset_self]
    · intro kv hkv f hf hfp
      rcases mem_mset _ _ _ _ hkv with rfl | ⟨hm, -⟩
      · have hfe : f = ⟨p2, c1.take (d * BLOCKSIZE) ++ readChunk c2 d⟩ :=
          (Option.some.inj hf).symm
        rw [hfe] at hfp
        exact hne hfp.symm
      · rcases mem_insertDummies _ _ _ _ _ hm with hdm | ⟨hmem, hj⟩
        · rw [hdm] at hf
          exact Option.noConfusion hf
        · rcases List.mem_singleton.1 hmem with rfl
          exact hj 0 (Nat.le_refl 0) (by simp) rfl
  · intro disk c1 c2 p1 p2 n d gas st h1 h2 hn1 hn2 hmin hdn hgas hst
    subst hst
    have hst1 : sourceVisitFile disk gas p1 n ⟨[], []⟩ =
        ⟨[(⟨n, 0, []⟩, ⟨some ⟨p1, []⟩, none⟩)], []⟩ := by
      unfold sourceVisitFile
      dsimp only [newFileEntry]
      rw [dummySkip_nil_entries]
      rfl
    rw [hst1]
    have hconf := sourceConflict_input_error disk c1 c2 p1 p2 n d h1 h2 hn1 hn2 hmin hdn
      gas 0 false false [(⟨n, 0, []⟩, ⟨some ⟨p1, []⟩, none⟩)] (Nat.zero_le _)
      (by simpa using hgas)
    rw [show c1.take (0 * BLOCKSIZE) = [] from rfl] at hconf
    unfold sourceVisitFile
    dsimp only [newFileEntry]
    rw [dummySkip_found disk gas _ _ false .ok _ ⟨some ⟨p1, []⟩, none⟩
      (by simp [lookup]) (by simp)]
    dsimp only
    rw [hconf]
    intro kv hkv
    rcases mem_insertDummies _ _ _ _ _ hkv with hdm | ⟨hmem, hj⟩
    · rw [hdm]
    · exfalso
      rcases List.mem_singleton.1 hmem with rfl
      exact hj 0 (Nat.le_refl 0) (by simp) rfl

/-- Witness for C8 amended: the input-error part at a one-byte pair. -/
theorem conflict_resolution_on_divergence_or_error_witness :
    ∀ kv ∈ (sourceVisitFile
        (fun s => if s = "b" then ⟨false, [1], some 0⟩ else ⟨false, [1], none⟩) [(), ()] "b" 1
        (sourceVisitFile
          (fun s => if s = "b" then ⟨false, [1], some 0⟩ else ⟨false, [1], none⟩) [(), ()]
          "a" 1 ⟨[], []⟩)).entries, kv.2.sourceID = none :=
  conflict_resolution_on_divergence_or_error.2.2
    (fun s => if s = "b" then ⟨false, [1], some 0⟩ else ⟨false, [1], none⟩)
    [1] [1] "a" "b" 1 0 [(), ()] _ (by decide) (by decide) (by decide) (by decide)
    (by omega) (by decide) (by decide) rfl

/-- C3.  Scanning two byte-identical same-size SOURCE files: the lock-step
conflict loop exhausts both with equal fingerprints, both paths are logged
as source duplicates, the entry at the final shared fingerprint
`(size, size/BLOCKSIZE + 1, full digest)` is exactly the dummy marker, and
no entry holding a source reference survives anywhere in the table. -/
theorem source_duplicates_both_dropped (disk : String → MFile) (c : Bytes) (p1 p2 : String)
    (h1 : disk p1 = ⟨false, c, none⟩) (h2 : disk p2 = ⟨false, c, none⟩) (hne : p1 ≠ p2)
    (gas : List Unit) (hgas : c.length / BLOCKSIZE + 2 ≤ gas.length) (st : SState)
    (hst : st = sourceVisitFile disk gas p2 c.length
      (sourceVisitFile disk gas p1 c.length ⟨[], []⟩)) :
    lookup st.entries ⟨c.length, c.length / BLOCKSIZE + 1, c⟩ = some ⟨none, none⟩ ∧
    st.log = [.sourceDup c p2, .sourceDup c p1] ∧
    ∀ kv ∈ st.entries, kv.2.sourceID = none := by
  subst hst
  have hst1 : sourceVisitFile disk gas p1 c.length ⟨[], []⟩ =
      ⟨[(⟨c.length, 0, []⟩, ⟨some ⟨p1, []⟩, none⟩)], []⟩ := by
    unfold sourceVisitFile
    dsimp only [newFileEntry]
    rw [dummySkip_nil_entries]
    rfl
  rw [hst1]
  have hconf := sourceConflict_identical disk c p1 p2 h1 h2 gas 0 false false
    [(⟨c.length, 0, []⟩, ⟨some ⟨p1, []⟩, none⟩)] (Nat.zero_le _)
    (by simpa using hgas)
  rw [show c.take (0 * BLOCKSIZE) = [] from rfl] at hconf
  unfold sourceVisitFile
  dsimp only [newFileEntry]
  rw [dummySkip_found disk gas _ _ false .ok _ ⟨some ⟨p1, []⟩, none⟩
    (by simp [lookup]) (by simp)]
  dsimp only
  rw [hconf]
  dsimp only
  rw [if_pos ⟨rfl, rfl⟩]
  refine ⟨lookup_mset_self _ _ _, by simp, ?_⟩
  intro kv hkv
  rcases mem_mset _ _ _ _ hkv with rfl | ⟨hm, _⟩
  · rfl
  · rcases mem_insertDummies _ _ _ _ _ hm with hd | ⟨hmem, hj⟩
    · rw [hd]
    · exfalso
      rcases List.mem_singleton.1 hmem with rfl
      exact hj 0 (Nat.le_refl 0) (by simp) rfl

/-- Witness for C3: two identical one-byte files. -/
theorem source_duplicates_both_dropped_witness :
    lookup (sourceVisitFile (fun _ => ⟨false, [1], none⟩) [(), ()] "b" 1
        (sourceVisitFile (fun _ => ⟨false, [1], none⟩) [(), ()] "a" 1 ⟨[], []⟩)).entries
      ⟨1, 1, [1]⟩ = some ⟨none, none⟩ :=
  (source_duplicates_both_dropped (fun _ => ⟨false, [1], none⟩) [1] "a" "b" rfl rfl
    (by decide) [(), ()] (by norm_num [BLOCKSIZE]) _ rfl).1

/-- The target three-way conflict loop exits immediately when its guard
fails. -/
theorem targetConflict_exit (sdisk tdisk : String → MFile) (gas : List Unit) (sID : fileID)
    (sKey : partialHash) (ops : Bool) (iID : fileID) (iKey : partialHash) (opi : Bool)
    (cID : fileID) (cKey : partialHash) (opc : Bool) (e : RollErr) (entries : EMap)
    (h : ¬(iKey = cKey ∧ iKey = sKey ∧ e = .ok)) :
    targetConflict sdisk tdisk gas sID sKey ops iID iKey opi cID cKey opc e entries =
      .finish sID sKey iID iKey cID cKey e entries := by
  cases gas with
  | nil => rfl
  | cons u gas => rw [targetConflict, if_neg h]

/-- The three-way target conflict loop with the source record and the
existing candidate byte-identical (contents `c`) and the new candidate
(contents `c'`) diverging first at block `d`: it rolls all three in
lock-step through block `d`, marking blocks `p..d` dummy, and exits just
after that roll with source and existing candidate still equal at roll
count `d+1` and the input diverged. -/
theorem targetConflict_diverge_input (sdisk tdisk : String → MFile) (c c' : Bytes)
    (ps pt1 pt2 : String) (hs : sdisk ps = ⟨false, c, none⟩)
    (h1 : tdisk pt1 = ⟨false, c, none⟩) (h2 : tdisk pt2 = ⟨false, c', none⟩) (n d : Nat)
    (hn : c.length = n) (hn' : c'.length = n)
    (hmin : ∀ q, q < d → readChunk c q = readChunk c' q)
    (hd : readChunk c d ≠ readChunk c' d) :
    ∀ (gas : List Unit) (p : Nat) (ops opi opc : Bool) (entries : EMap),
      p ≤ d → d + 2 - p ≤ gas.length →
      targetConflict sdisk tdisk gas ⟨ps, c.take (p * BLOCKSIZE)⟩
          ⟨n, p, c.take (p * BLOCKSIZE)⟩ ops ⟨pt2, c.take (p * BLOCKSIZE)⟩
          ⟨n, p, c.take (p * BLOCKSIZE)⟩ opi ⟨pt1, c.take (p * BLOCKSIZE)⟩
          ⟨n, p, c.take (p * BLOCKSIZE)⟩ opc .ok entries =
        .finish ⟨ps, c.take ((d + 1) * BLOCKSIZE)⟩ ⟨n, d + 1, c.take ((d + 1) * BLOCKSIZE)⟩
          ⟨pt2, c.take (d * BLOCKSIZE) ++ readChunk c' d⟩
          ⟨n, d + 1, c.take (d * BLOCKSIZE) ++ readChunk c' d⟩
          ⟨pt1, c.take ((d + 1) * BLOCKSIZE)⟩ ⟨n, d + 1, c.take ((d + 1) * BLOCKSIZE)⟩
          (if n < (d + 1) * BLOCKSIZE then RollErr.eof else .ok)
          (insertDummies (fun j => ⟨n, j, c.take (j * BLOCKSIZE)⟩) p (d + 1 - p) entries) := by
  have hdn : d * BLOCKSIZE < n := chunk_ne_lt_length c c' n d hn hn' hd
  intro gas
  induction gas with
  | nil =>
    intro p ops opi opc entries hp hgas
    rw [List.length_nil] at hgas
    exact absurd hgas (by omega)
  | cons u gas ih =>
    intro p ops opi opc entries hp hgas
    rw [List.length_cons] at hgas
    rw [targetConflict, if_pos ⟨rfl, rfl, rfl⟩]
    simp only [hs, h1, h2]
    rw [rollingChecksum_clean c none ops ps _ _ _ _ (readAtErr_none c p),
      rollingChecksum_clean c' none opi pt2 _ _ _ _ (readAtErr_none c' p),
      rollingChecksum_clean c none opc pt1 _ _ _ _ (readAtErr_none c p), hn, hn']
    rcases Nat.lt_or_eq_of_le hp with hlt | rfl
    · rw [← hmin p hlt]
      simp only [take_append_chunk]
      have hok : ¬(n < (p + 1) * BLOCKSIZE) := by
        have ha : (p + 1) * BLOCKSIZE ≤ d * BLOCKSIZE := Nat.mul_le_mul_right _ (by omega)
        omega
      rw [if_neg hok, if_neg (by simp), if_neg (by simp), if_neg (by simp),
        ih (p + 1) true true true _ (by omega) (by omega)]
      have hcount : d + 1 - p = (d + 1 - (p + 1)) + 1 := by omega
      rw [hcount, insertDummies_succ]
    · rw [take_append_chunk]
      rw [if_neg (eofOk_ne_ioerr _), if_neg (eofOk_ne_ioerr _), if_neg (eofOk_ne_ioerr _),
        targetConflict_exit _ _ _ _ _ _ _ _ _ _ _ _ _ _
          (by rintro ⟨heq, -⟩; exact diverged_keys_ne c c' n p hd heq)]
      have hcount : p + 1 - p = 0 + 1 := by omega
      rw [hcount, insertDummies_succ, insertDummies_zero]

/-- C4.  Three-way target conflict where the source `S` and the first
candidate `T1` are byte-identical while the second candidate `T2` diverges
at some block `d`: after `T2`'s visit the entry at the shared final
fingerprint keeps `source = S` and `target = T1` (with the digests of the
prefix through block `d`), and no surviving entry references `T2` as a
target candidate. -/
theorem target_conflict_keeps_matching_candidate (sdisk tdisk : String → MFile)
    (c c' : Bytes) (ps pt1 pt2 : String) (n d : Nat)
    (hs : sdisk ps = ⟨false, c, none⟩) (h1 : tdisk pt1 = ⟨false, c, none⟩)
    (h2 : tdisk pt2 = ⟨false, c', none⟩) (hn : c.length = n) (hn' : c'.length = n)
    (hmin : ∀ q, q < d → readChunk c q = readChunk c' q)
    (hd : readChunk c d ≠ readChunk c' d) (hne : pt1 ≠ pt2)
    (gas : List Unit) (hgas : d + 2 ≤ gas.length) (st : SState)
    (hst : st = targetVisitFile sdisk tdisk gas pt2 n
      (targetVisitFile sdisk tdisk gas pt1 n (sourceVisitFile sdisk gas ps n ⟨[], []⟩))) :
    lookup st.entries ⟨n, d + 1, c.take ((d + 1) * BLOCKSIZE)⟩ =
      some ⟨some ⟨ps, c.take ((d + 1) * BLOCKSIZE)⟩,
        some (.ref ⟨pt1, c.take ((d + 1) * BLOCKSIZE)⟩)⟩ ∧
    ∀ kv ∈ st.entries, ∀ f, kv.2.targetID = some (.ref f) → f.path = pt1 := by
  subst hst
  have hst1 : sourceVisitFile sdisk gas ps n ⟨[], []⟩ =
      ⟨[(⟨n, 0, []⟩, ⟨some ⟨ps, []⟩, none⟩)], []⟩ := by
    unfold sourceVisitFile
    dsimp only [newFileEntry]
    rw [dummySkip_nil_entries]
    rfl
  rw [hst1]
  have hst2 : targetVisitFile sdisk tdisk gas pt1 n
      ⟨[(⟨n, 0, []⟩, ⟨some ⟨ps, []⟩, none⟩)], []⟩ =
      ⟨[(⟨n, 0, []⟩, ⟨some ⟨ps, []⟩, some (.ref ⟨pt1, []⟩)⟩)], []⟩ := by
    unfold targetVisitFile
    dsimp only [newFileEntry]
    rw [dummySkip_found tdisk gas _ _ false .ok _ ⟨some ⟨ps, []⟩, none⟩
      (by simp [lookup]) (by simp)]
    dsimp only
    simp [mset, erase]
  rw [hst2]
  have hconf := targetConflict_diverge_input sdisk tdisk c c' ps pt1 pt2 hs h1 h2 n d
    hn hn' hmin hd gas 0 false false false
    [(⟨n, 0, []⟩, ⟨some ⟨ps, []⟩, some (.ref ⟨pt1, []⟩)⟩)] (Nat.zero_le _)
    (by simpa using hgas)
  rw [show c.take (0 * BLOCKSIZE) = [] from rfl] at hconf
  unfold targetVisitFile
  dsimp only [newFileEntry]
  rw [dummySkip_found tdisk gas _ _ false .ok _ ⟨some ⟨ps, []⟩, some (.ref ⟨pt1, []⟩)⟩
    (by simp [lookup]) (by simp)]
  dsimp only
  rw [hconf]
  dsimp only
  rw [if_neg (by rintro ⟨heq, -⟩; exact diverged_keys_ne c c' n d hd heq),
    if_neg (by rintro ⟨heq, -⟩; exact diverged_keys_ne c c' n d hd heq),
    if_pos ⟨rfl, Ne.symm (diverged_keys_ne c c' n d hd)⟩]
  constructor
  · rw [lookup_mset_self]
  · intro kv hkv f hf
    rcases mem_mset _ _ _ _ hkv with rfl | ⟨hm, -⟩
    · have hfe : TargetRef.ref ⟨pt1, c.take ((d + 1) * BLOCKSIZE)⟩ = .ref f :=
        Option.some.inj hf
      rw [← TargetRef.ref.inj hfe]
    · rcases mem_insertDummies _ _ _ _ _ hm with hdm | ⟨hmem, hj⟩
      · rw [hdm] at hf
        simp at hf
      · exfalso
        rcases List.mem_singleton.1 hmem with rfl
        exact hj 0 (Nat.le_refl 0) (by simp) rfl

/-- Witness for C4: one-byte files, `S = T1 = [1]`, `T2 = [2]`. -/
theorem target_conflict_keeps_matching_candidate_witness :
    lookup (targetVisitFile (fun _ => ⟨false, [1], none⟩)
        (fun s => if s = "t2" then ⟨false, [2], none⟩ else ⟨false, [1], none⟩) [(), ()] "t2" 1
        (targetVisitFile (fun _ => ⟨false, [1], none⟩)
          (fun s => if s = "t2" then ⟨false, [2], none⟩ else ⟨false, [1], none⟩) [(), ()] "t1" 1
          (sourceVisitFile (fun _ => ⟨false, [1], none⟩) [(), ()] "s" 1 ⟨[], []⟩))).entries
      ⟨1, 1, [1]⟩ = some ⟨some ⟨"s", [1]⟩, some (.ref ⟨"t1", [1]⟩)⟩ :=
  (target_conflict_keeps_matching_candidate (fun _ => ⟨false, [1], none⟩)
    (fun s => if s = "t2" then ⟨false, [2], none⟩ else ⟨false, [1], none⟩)
    [1] [2] "s" "t1" "t2" 1 0 rfl (by decide) (by decide) rfl rfl
    (fun q hq => absurd hq (Nat.not_lt_zero q)) (by decide) (by decide)
    [(), ()] (by decide) _ rfl).1

/-- Witness for C9 at a concrete chain with `d` occupied. -/
theorem skip_on_existing_destination_witness :
    (processRenames gas9 false "T" ["a", "b", "c"]
      ⟨[("a", "b"), ("b", "c"), ("c", "d")], [("b", "a"), ("c", "b"), ("d", "c")],
        [("a", "va"), ("c", "vc"), ("d", "vd")], []⟩).events =
      [REvent.skipped "c" "d", REvent.skipped "b" "c", REvent.renamed "a" "b"] :=
  (skip_on_existing_destination "a" "b" "c" "d" "va" "vc" "vd" "T"
    (by decide) (by decide) (by decide) (by decide) (by decide) (by decide)
    (by decide) (by decide) (by decide) _ rfl).1

end Hsync
